import Mathlib

/-!
Verification of the cyclist collaborative-document core against its
specification.  The development shallowly embeds the versioned update log
(`LocalDocument`), the file persistence layer (`FileDocument.watch`, the
debounced text watcher and the coalescing `write` routine) and the sync
client (`peer`), and proves or refutes the frozen claims about them.

Conventions of the embedding:
- CodeMirror `Text` values are lists of lines.
- `ChangeSet` is opaque to this core (the code only ever calls
  `ChangeSet.fromJSON(changes).apply(text)`), so changes are modelled as an
  executable change description with an `apply` function.
- RxJS subjects are modelled by their replay buffers and a completion flag;
  promise/await interleavings are modelled by explicit arrival lists at the
  suspension points.
-/

namespace Cyclist

/-- A text value (CodeMirror `Text`): the list of its lines. -/
abbrev DocText := List String

/-- Opaque composable change description (a serialized `ChangeSet`).  The
core never inspects it; it only applies it to a text, so it is modelled as
an executable description with `applyChanges` below. -/
inductive Changes where
  | keepAll : Changes
  | setTo (lines : List String) : Changes
  | appendLine (line : String) : Changes
deriving DecidableEq

/-- Application of a change description to a text
(`ChangeSet.fromJSON(changes).apply(text)`). -/
def applyChanges : Changes → DocText → DocText
  | .keepAll, t => t
  | .setTo l, _ => l
  | .appendLine s, t => t ++ [s]

/-- A side-effect tag riding on an update (`evaluations` entries): either an
evaluated span `[from, to]` or a command `[method]`. -/
inductive EvalTag where
  | span (first last : Nat) : EvalTag
  | command (method : String) : EvalTag
deriving DecidableEq

/-- The versionless part of an update (`Omit<DocumentUpdate, "version">`). -/
structure UpdateData where
  changes : Changes
  clientID : String
  evaluations : Option (List EvalTag)
deriving DecidableEq

/-- A full `DocumentUpdate`: a version plus the update data. -/
structure DocumentUpdate where
  version : Nat
  changes : Changes
  clientID : String
  evaluations : Option (List EvalTag)
deriving DecidableEq

/-- Strip the version from an update. -/
def DocumentUpdate.data (u : DocumentUpdate) : UpdateData :=
  ⟨u.changes, u.clientID, u.evaluations⟩

/-- Attach a version to update data (`{ version, ...update }`). -/
def UpdateData.withVersion (v : Nat) (d : UpdateData) : DocumentUpdate :=
  ⟨v, d.changes, d.clientID, d.evaluations⟩

/-- Number the elements of an update list with consecutive versions starting
at `v0`, as the `LocalDocument` constructor does when replaying the initial
update list into `updates$`. -/
def enumUpdates (v0 : Nat) : List UpdateData → List DocumentUpdate
  | [] => []
  | u :: rest => u.withVersion v0 :: enumUpdates (v0 + 1) rest

/-- State of a `LocalDocument` (src/unnamed/part_000, lines 22-71).
`subjectBuffer` and `subjectCompleted` model the unbounded `ReplaySubject`
`updates$`: the buffer is what any (arbitrarily late) subscriber is
replayed, and `next` after `complete` is a no-op.  The `destroyed` field
mirrors the private `destroyed` flag of the source. -/
structure LocalDocument where
  initialText : DocText
  initialVersion : Nat
  updateList : List UpdateData
  subjectBuffer : List DocumentUpdate
  subjectCompleted : Bool
  destroyed : Bool
deriving DecidableEq

/-- The `LocalDocument` constructor: record the initial update list and
replay it into `updates$` with versions `initialVersion + index`. -/
def LocalDocument.make (initialText : DocText) (initialVersion : Nat)
    (updateList : List UpdateData) : LocalDocument :=
  { initialText := initialText
    initialVersion := initialVersion
    updateList := updateList
    subjectBuffer := enumUpdates initialVersion updateList
    subjectCompleted := false
    destroyed := false }

/-- Current version getter (lines 27-29):
`initialVersion + updateList.length`. -/
def LocalDocument.version (d : LocalDocument) : Nat :=
  d.initialVersion + d.updateList.length

/-- One `updates$.next(u)` call: appended to the replay buffer unless the
subject has completed (RxJS drops `next` after `complete`). -/
def LocalDocument.subjectNext (d : LocalDocument) (u : DocumentUpdate) :
    LocalDocument :=
  if d.subjectCompleted then d else { d with subjectBuffer := d.subjectBuffer ++ [u] }

/-- Failure raised by `pushUpdate` on a destroyed document (the thrown
`Error` of line 55). -/
inductive DocError where
  | destroyedDocument : DocError
deriving DecidableEq

/-- The gated append `pushUpdate` (lines 54-64): throw if the `destroyed`
flag is set; return `false` without mutation on a version mismatch;
otherwise record the update data, notify `updates$` with the full update
and return `true`. -/
def LocalDocument.pushUpdate (d : LocalDocument) (u : DocumentUpdate) :
    Except DocError (LocalDocument × Bool) :=
  if d.destroyed then .error .destroyedDocument
  else if u.version ≠ d.version then .ok (d, false)
  else
    let d' := { d with updateList := d.updateList ++ [u.data] }
    .ok (d'.subjectNext u, true)

/-- The `destroy` method (lines 68-70): it only completes `updates$`.  Note
that it never sets the `destroyed` flag — this mirrors the source exactly. -/
def LocalDocument.destroy (d : LocalDocument) : LocalDocument :=
  { d with subjectCompleted := true }

/-- State transition of a document under one attempted `pushUpdate` (a
thrown error leaves the state unchanged). -/
def LocalDocument.step (d : LocalDocument) (u : DocumentUpdate) : LocalDocument :=
  match d.pushUpdate u with
  | .ok (d', _) => d'
  | .error _ => d

/-- A run of attempted appends against a document. -/
def LocalDocument.run (d : LocalDocument) (us : List DocumentUpdate) : LocalDocument :=
  us.foldl LocalDocument.step d

/-- Fold a list of update data over an initial text: the materialized text
of the log (the `scan` of line 44 over the accepted updates). -/
def materialize (t0 : DocText) (l : List UpdateData) : DocText :=
  l.foldl (fun t u => applyChanges u.changes t) t0

/-- Latest value of the `text$` stream under `shareReplay(1)` (lines 41-51):
the fold of every update emitted by `updates$` over the initial text. -/
def LocalDocument.latestText (d : LocalDocument) : DocText :=
  d.subjectBuffer.foldl (fun t u => applyChanges u.changes t) d.initialText

/-- Reattaching the version a full update was built from recovers it. -/
theorem withVersion_data (u : DocumentUpdate) : u.data.withVersion u.version = u := by
  cases u
  rfl

/-- Version numbering distributes over appending one update at the end. -/
theorem enumUpdates_append (v : Nat) (l : List UpdateData) (x : UpdateData) :
    enumUpdates v (l ++ [x]) = enumUpdates v l ++ [x.withVersion (v + l.length)] := by
  induction l generalizing v with
  | nil => simp [enumUpdates]
  | cons y rest ih =>
    have hsum : v + 1 + rest.length = v + (rest.length + 1) := by omega
    show UpdateData.withVersion v y :: enumUpdates (v + 1) (rest ++ [x])
        = UpdateData.withVersion v y :: enumUpdates (v + 1) rest
          ++ [UpdateData.withVersion (v + (rest.length + 1)) x]
    rw [ih, hsum]
    rfl

/-- Folding text application over a version-numbered list equals folding it
over the raw update data. -/
theorem foldl_enumUpdates (l : List UpdateData) (v : Nat) (t : DocText) :
    (enumUpdates v l).foldl (fun t u => applyChanges u.changes t) t
      = l.foldl (fun t u => applyChanges u.changes t) t := by
  induction l generalizing v t with
  | nil => rfl
  | cons y rest ih =>
    simp only [enumUpdates, List.foldl_cons, UpdateData.withVersion, ih]

/-- One `step` of a live (not destroyed, not completed) document either
leaves it unchanged (version mismatch) or appends the accepted update to
both the update list and the replay buffer. -/
theorem step_cases (d : LocalDocument) (u : DocumentUpdate)
    (hd : d.destroyed = false) (hc : d.subjectCompleted = false) :
    (u.version ≠ d.version ∧ d.step u = d) ∨
    (u.version = d.version ∧
      d.step u = { d with updateList := d.updateList ++ [u.data],
                          subjectBuffer := d.subjectBuffer ++ [u] }) := by
  by_cases hv : u.version = d.version
  · right
    refine ⟨hv, ?_⟩
    simp [LocalDocument.step, LocalDocument.pushUpdate, LocalDocument.subjectNext, hd, hc, hv]
  · left
    refine ⟨hv, ?_⟩
    simp [LocalDocument.step, LocalDocument.pushUpdate, hd, hv]

/-- Along any run of attempted appends on a live document, the replay
buffer stays exactly the version-numbered update list, and the construction
parameters and liveness flags are untouched. -/
theorem run_preserves_replay (ops : List DocumentUpdate) :
    ∀ d : LocalDocument, d.destroyed = false → d.subjectCompleted = false →
    d.subjectBuffer = enumUpdates d.initialVersion d.updateList →
    (d.run ops).destroyed = false ∧ (d.run ops).subjectCompleted = false ∧
    (d.run ops).initialVersion = d.initialVersion ∧
    (d.run ops).initialText = d.initialText ∧
    (d.run ops).subjectBuffer = enumUpdates d.initialVersion (d.run ops).updateList := by
  induction ops with
  | nil => exact fun d hd hc hb => ⟨hd, hc, rfl, rfl, hb⟩
  | cons u rest ih =>
    intro d hd hc hb
    have hrun : d.run (u :: rest) = (d.step u).run rest := by
      simp [LocalDocument.run]
    rw [hrun]
    rcases step_cases d u hd hc with ⟨_, heq⟩ | ⟨hv, heq⟩
    · rw [heq]
      exact ih d hd hc hb
    · have hd' : (d.step u).destroyed = false := by rw [heq]; exact hd
      have hc' : (d.step u).subjectCompleted = false := by rw [heq]; exact hc
      have hb' : (d.step u).subjectBuffer
          = enumUpdates (d.step u).initialVersion (d.step u).updateList := by
        rw [heq]
        show d.subjectBuffer ++ [u] = enumUpdates d.initialVersion (d.updateList ++ [u.data])
        rw [enumUpdates_append, hb]
        congr 1
        have : d.initialVersion + d.updateList.length = u.version := by
          rw [hv]; rfl
        rw [this, withVersion_data]
      have hv' : (d.step u).initialVersion = d.initialVersion := by rw [heq]
      have ht' : (d.step u).initialText = d.initialText := by rw [heq]
      have := ih (d.step u) hd' hc' hb'
      rw [hv', ht'] at this
      exact this

/-- C2: gated append.  On a live document, `pushUpdate` succeeds and
mutates the log iff the update carries the current version: on a match it
returns `true`, records exactly the new update, notifies every subscriber
with the full update (the replay buffer grows by it), and the current
version becomes one greater; on a mismatch it returns `false` with the
state completely unchanged. -/
theorem C2_gated_append (d : LocalDocument) (u : DocumentUpdate)
    (hd : d.destroyed = false) (hc : d.subjectCompleted = false) :
    (u.version = d.version →
      d.pushUpdate u = .ok ({ d with updateList := d.updateList ++ [u.data],
                                     subjectBuffer := d.subjectBuffer ++ [u] }, true) ∧
      ({ d with updateList := d.updateList ++ [u.data],
                subjectBuffer := d.subjectBuffer ++ [u] } : LocalDocument).version
        = d.version + 1) ∧
    (u.version ≠ d.version → d.pushUpdate u = .ok (d, false)) := by
  constructor
  · intro hv
    constructor
    · simp [LocalDocument.pushUpdate, LocalDocument.subjectNext, hd, hc, hv]
    · simp [LocalDocument.version]
      omega
  · intro hv
    simp [LocalDocument.pushUpdate, hd, hv]

/-- A fresh empty document at version 0. -/
def doc0 : LocalDocument := LocalDocument.make [""] 0 []

/-- A concrete update carrying version 0. -/
def upd0 : DocumentUpdate := ⟨0, .setTo ["x"], "a", none⟩

/-- Witness for C2: on the fresh document, the version-0 append succeeds,
is recorded and notified, and the version becomes 1. -/
theorem C2_gated_append_witness :
    doc0.pushUpdate upd0
        = .ok ({ doc0 with updateList := doc0.updateList ++ [upd0.data],
                           subjectBuffer := doc0.subjectBuffer ++ [upd0] }, true) ∧
    ({ doc0 with updateList := doc0.updateList ++ [upd0.data],
                 subjectBuffer := doc0.subjectBuffer ++ [upd0] } : LocalDocument).version
      = doc0.version + 1 :=
  (C2_gated_append doc0 upd0 rfl rfl).1 rfl

/-- C4 (code bug): `destroy` only completes `updates$` and never sets the
`destroyed` flag, so the invalid-state guard in `pushUpdate` is dead code.
Appending to a destroyed document does not fail with an invalid-state
error: it succeeds, returns `true` and mutates the update list (while the
completed subject silently drops the notification). -/
theorem C4_push_after_destroy_succeeds :
    doc0.destroy.pushUpdate upd0
      = .ok ({ initialText := [""], initialVersion := 0, updateList := [upd0.data],
               subjectBuffer := [], subjectCompleted := true, destroyed := false }, true) := by
  rfl

/-- C10: full-history replay.  For every document built by the constructor
and mutated by any sequence of attempted appends, the replay buffer of
`updates$` — which is exactly what an arbitrarily late subscriber is
replayed, in order — contains every accepted update (including the ones
supplied at construction) in append order with versions
`initialVersion + i`; and the latest value of the `text$` stream equals the
materialization of the accepted updates over the initial text. -/
theorem C10_full_replay (t0 : DocText) (v0 : Nat) (inits : List UpdateData)
    (ops : List DocumentUpdate) :
    ((LocalDocument.make t0 v0 inits).run ops).subjectBuffer
        = enumUpdates v0 ((LocalDocument.make t0 v0 inits).run ops).updateList ∧
    ((LocalDocument.make t0 v0 inits).run ops).latestText
        = materialize t0 ((LocalDocument.make t0 v0 inits).run ops).updateList := by
  have h := run_preserves_replay ops (LocalDocument.make t0 v0 inits) rfl rfl rfl
  rcases h with ⟨_, _, _, hT, hB⟩
  refine ⟨hB, ?_⟩
  rw [LocalDocument.latestText, hB, hT, materialize, foldl_enumUpdates]
  rfl

/-! The sync client (src/unnamed/part_001): the `peer` view plugin keeps a
CodeMirror collab editor in step with a document.  `getSyncedVersion` and
`receiveUpdates` come from the external `@codemirror/collab` library; their
contract is that dispatching `receiveUpdates(state, [u])` applies `u` to
the editor and advances `getSyncedVersion` by one. -/

/-- A `@codemirror/collab` `Update` as built by the plugin: the changes,
the originating client and the effects decoded from the evaluation tags. -/
structure PeerUpdate where
  changes : Changes
  clientID : String
  effects : List EvalTag
deriving DecidableEq

/-- Decoding of the `evaluations` payload into effects (lines 32-36): only
entries whose first element is a number (spans) become effects. -/
def effectsOfEvaluations : Option (List EvalTag) → List EvalTag
  | none => []
  | some l => l.filter fun t => match t with | .span _ _ => true | .command _ => false

/-- The collab update the subscriber hands to `applyUpdate` (lines 38-42). -/
def DocumentUpdate.toPeer (u : DocumentUpdate) : PeerUpdate :=
  ⟨u.changes, u.clientID, effectsOfEvaluations u.evaluations⟩

/-- State of the plugin instance: the local client id, the synced version
of the editor state (`getSyncedVersion`), the `queuedUpdates` map (a
JavaScript `Map`, modelled as an insertion-ordered association list), and
the history of updates dispatched through `receiveUpdates`, in dispatch
order. -/
structure PeerState where
  ownID : String
  synced : Nat
  queued : List (Nat × PeerUpdate)
  applied : List (Nat × PeerUpdate)
deriving DecidableEq

/-- `Map.set`: overwrite the entry in place, or append a new one. -/
def mapSet (m : List (Nat × PeerUpdate)) (k : Nat) (v : PeerUpdate) :
    List (Nat × PeerUpdate) :=
  match m with
  | [] => [(k, v)]
  | (k', v') :: rest => if k = k' then (k, v) :: rest else (k', v') :: mapSet rest k v

/-- `Map.get`: the value stored at a key, if any. -/
def mapGet (m : List (Nat × PeerUpdate)) (k : Nat) : Option PeerUpdate :=
  match m with
  | [] => none
  | (k', v') :: rest => if k = k' then some v' else mapGet rest k

/-- The while loop of `applyUpdate` (lines 95-98): as long as the map holds
an update for the synced version, dispatch it (recorded in `applied`) and
re-read the advanced synced version.  The loop never removes map entries,
exactly as in the source; `fuel` bounds the iterations (each iteration
consumes a distinct key, so any fuel beyond the map size is inert). -/
def drainLoop : Nat → PeerState → PeerState
  | 0, st => st
  | fuel + 1, st =>
    match mapGet st.queued st.synced with
    | none => st
    | some u =>
      drainLoop fuel
        { st with applied := st.applied ++ [(st.synced, u)], synced := st.synced + 1 }

/-- The private `applyUpdate` method (lines 89-99): store the update under
its version, then drain. -/
def PeerState.applyUpdate (st : PeerState) (version : Nat) (u : PeerUpdate) :
    PeerState :=
  let st' := { st with queued := mapSet st.queued version u }
  drainLoop (st'.queued.length + 1) st'

/-- The `updates$` subscriber (lines 21-44): a local update (clientID equal
to our own) is ignored outright; any other update is decoded and handed to
`applyUpdate` keyed by its version. -/
def PeerState.onUpdate (st : PeerState) (u : DocumentUpdate) : PeerState :=
  if u.clientID = st.ownID then st
  else st.applyUpdate u.version u.toPeer

/-- The send path after a successful `pushUpdate` (lines 74-84): the update
is fed through `applyUpdate` at the version that was synced when the push
started. -/
def PeerState.pushSuccess (st : PeerState) (u : PeerUpdate) : PeerState :=
  st.applyUpdate st.synced u

/-- A sequence of arrivals on the update stream. -/
def PeerState.runUpdates (st : PeerState) (us : List DocumentUpdate) : PeerState :=
  us.foldl PeerState.onUpdate st

/-- Setting a key makes it present for `Map.get`. -/
theorem mapGet_mapSet_self (m : List (Nat × PeerUpdate)) (k : Nat) (v : PeerUpdate) :
    mapGet (mapSet m k v) k = some v := by
  induction m with
  | nil => simp [mapSet, mapGet]
  | cons e rest ih =>
    obtain ⟨k', v'⟩ := e
    by_cases h : k = k'
    · simp [mapSet, mapGet, h]
    · simp [mapSet, mapGet, h, ih]

/-- Setting a key never removes another one. -/
theorem mapGet_isSome_mapSet (m : List (Nat × PeerUpdate)) (k k2 : Nat)
    (v : PeerUpdate) (h : (mapGet m k).isSome) :
    (mapGet (mapSet m k2 v) k).isSome := by
  induction m with
  | nil => simp [mapGet] at h
  | cons e rest ih =>
    obtain ⟨k', v'⟩ := e
    by_cases h2 : k2 = k'
    · by_cases h3 : k = k2
      · simp [mapSet, mapGet, h2, h3]
      · have h4 : ¬ (k = k') := by rw [← h2]; exact h3
        simp [mapSet, mapGet, h2, h3, h4] at h ⊢
        rw [← h2] at h4
        simpa [mapGet, h4] using h
    · by_cases h3 : k = k'
      · simp [mapSet, mapGet, h2, h3]
      · simp [mapSet, mapGet, h2, h3] at h ⊢
        exact ih h

/-- The drain loop never touches the map. -/
theorem drainLoop_queued (fuel : Nat) :
    ∀ st : PeerState, (drainLoop fuel st).queued = st.queued := by
  induction fuel with
  | zero => intro st; rfl
  | succ n ih =>
    intro st
    unfold drainLoop
    cases hq : mapGet st.queued st.synced with
    | none => rfl
    | some u => exact ih _

/-- The drain loop only moves the synced version forward. -/
theorem drainLoop_synced_le (fuel : Nat) :
    ∀ st : PeerState, st.synced ≤ (drainLoop fuel st).synced := by
  induction fuel with
  | zero => intro st; exact Nat.le_refl _
  | succ n ih =>
    intro st
    unfold drainLoop
    cases hq : mapGet st.queued st.synced with
    | none => exact Nat.le_refl _
    | some u =>
      have h := ih { st with applied := st.applied ++ [(st.synced, u)], synced := st.synced + 1 }
      show st.synced ≤ (drainLoop n
        { st with applied := st.applied ++ [(st.synced, u)], synced := st.synced + 1 }).synced
      simp only at h
      omega

/-- Invariant of the drain loop: when the versions dispatched so far are
exactly the consecutive range from `v0` up to the synced version, each loop
iteration extends that range by the version it dispatches. -/
theorem drainLoop_range (v0 : Nat) (fuel : Nat) :
    ∀ st : PeerState, v0 ≤ st.synced →
    st.applied.map Prod.fst = List.range' v0 (st.synced - v0) →
    v0 ≤ (drainLoop fuel st).synced ∧
    (drainLoop fuel st).applied.map Prod.fst
      = List.range' v0 ((drainLoop fuel st).synced - v0) := by
  induction fuel with
  | zero => intro st h1 h2; exact ⟨h1, h2⟩
  | succ n ih =>
    intro st h1 h2
    unfold drainLoop
    cases hq : mapGet st.queued st.synced with
    | none => exact ⟨h1, h2⟩
    | some u =>
      apply ih
      · simp
        omega
      · simp only [List.map_append, h2, List.map_cons, List.map_nil]
        have hn : st.synced + 1 - v0 = st.synced - v0 + 1 := by omega
        have hcat := @List.range'_concat 1 v0 (st.synced - v0)
        have hv : v0 + 1 * (st.synced - v0) = st.synced := by omega
        rw [hv] at hcat
        rw [hn, hcat]

/-- The invariant of `drainLoop_range` is preserved by every arrival. -/
theorem onUpdate_range (v0 : Nat) (st : PeerState) (u : DocumentUpdate)
    (h1 : v0 ≤ st.synced)
    (h2 : st.applied.map Prod.fst = List.range' v0 (st.synced - v0)) :
    v0 ≤ (st.onUpdate u).synced ∧
    (st.onUpdate u).applied.map Prod.fst
      = List.range' v0 ((st.onUpdate u).synced - v0) := by
  unfold PeerState.onUpdate
  by_cases hc : u.clientID = st.ownID
  · simp [hc]
    exact ⟨h1, h2⟩
  · simp [hc]
    unfold PeerState.applyUpdate
    exact drainLoop_range v0 _ _ h1 h2

/-- The invariant of `drainLoop_range` is preserved by a whole run. -/
theorem runUpdates_range (v0 : Nat) (us : List DocumentUpdate) :
    ∀ st : PeerState, v0 ≤ st.synced →
    st.applied.map Prod.fst = List.range' v0 (st.synced - v0) →
    v0 ≤ (st.runUpdates us).synced ∧
    (st.runUpdates us).applied.map Prod.fst
      = List.range' v0 ((st.runUpdates us).synced - v0) := by
  induction us with
  | nil => intro st h1 h2; exact ⟨h1, h2⟩
  | cons u rest ih =>
    intro st h1 h2
    have hrun : st.runUpdates (u :: rest) = (st.onUpdate u).runUpdates rest := by
      simp [PeerState.runUpdates]
    rw [hrun]
    have h3 := onUpdate_range v0 st u h1 h2
    exact ih _ h3.1 h3.2

/-- A run also never drops a key of `queuedUpdates`. -/
theorem runUpdates_retains (us : List DocumentUpdate) :
    ∀ (st : PeerState) (k : Nat), (mapGet st.queued k).isSome →
    (mapGet (st.runUpdates us).queued k).isSome := by
  induction us with
  | nil => intro st k h; exact h
  | cons u rest ih =>
    intro st k h
    have hrun : st.runUpdates (u :: rest) = (st.onUpdate u).runUpdates rest := by
      simp [PeerState.runUpdates]
    rw [hrun]
    apply ih
    unfold PeerState.onUpdate
    by_cases hc : u.clientID = st.ownID
    · simpa [hc] using h
    · simp only [hc, if_false]
      unfold PeerState.applyUpdate
      rw [drainLoop_queued]
      exact mapGet_isSome_mapSet _ _ _ _ h

/-- A fresh client with expected next version 0 and an empty buffer. -/
def peerStart : PeerState := ⟨"me", 0, [], []⟩

/-- A remote update from another client carrying version `v`. -/
def remoteUpd (v : Nat) : DocumentUpdate := ⟨v, .appendLine "x", "other", none⟩

/-- The out-of-order arrival scenario: versions 2, 1, 0 arrive in that
order at a client expecting version 0. -/
def scenarioRun : PeerState :=
  peerStart.runUpdates [remoteUpd 2, remoteUpd 1, remoteUpd 0]

/-- C3: causal in-order application.  In any run of arrivals starting with
nothing applied, the sequence of versions dispatched to the editor is
exactly the consecutive range from the starting synced version up to the
final one — so version N+1 is never applied before version N.  In the
concrete scenario where versions 2, 1, 0 arrive in that order at a client
expecting 0, the client applies 0, then 1, then 2, ending with expected
next version 3. -/
theorem C3_in_order_application (st : PeerState) (us : List DocumentUpdate)
    (h0 : st.applied = []) :
    (st.synced ≤ (st.runUpdates us).synced ∧
      (st.runUpdates us).applied.map Prod.fst
        = List.range' st.synced ((st.runUpdates us).synced - st.synced)) ∧
    (scenarioRun.applied.map Prod.fst = [0, 1, 2] ∧ scenarioRun.synced = 3) := by
  constructor
  · apply runUpdates_range st.synced us st (Nat.le_refl _)
    simp [h0]
  · constructor <;> decide

/-- Witness for C3: the scenario instance itself, with the empty-history
hypothesis discharged on the fresh client. -/
theorem C3_in_order_application_witness :
    scenarioRun.applied.map Prod.fst = [0, 1, 2] ∧ scenarioRun.synced = 3 :=
  (C3_in_order_application peerStart [remoteUpd 2, remoteUpd 1, remoteUpd 0] rfl).2

/-- C8 counterexample: after the 2, 1, 0 scenario the drain has finished
(expected next version is 3), yet the buffer still holds entries for
versions 0, 1 and 2 — entries with version at or below the expected next
version are retained, not discarded or removed, refuting the claimed
buffer invariant. -/
theorem C8_counterexample :
    ¬ (∀ e ∈ scenarioRun.queued, scenarioRun.synced < e.1) := by
  decide

/-- C8 amended: the buffer never discards entries — applying an update
leaves it in `queuedUpdates` — but retained stale entries are harmless:
no version is ever dispatched twice (the dispatched versions are pairwise
distinct), and every key ever present in the buffer is still present at
the end of any run. -/
theorem C8_buffer_retention (st : PeerState) (us : List DocumentUpdate)
    (h0 : st.applied = []) :
    ((st.runUpdates us).applied.map Prod.fst).Nodup ∧
    ∀ k, (mapGet st.queued k).isSome →
      (mapGet (st.runUpdates us).queued k).isSome := by
  constructor
  · have h := (runUpdates_range st.synced us st (Nat.le_refl _) (by simp [h0])).2
    rw [h]
    exact List.nodup_range' _ _
  · intro k
    exact runUpdates_retains us st k

/-- Witness for C8: in the concrete scenario no version was dispatched
twice, and the key first buffered (version 2) is still in the buffer. -/
theorem C8_buffer_retention_witness :
    (scenarioRun.applied.map Prod.fst).Nodup :=
  (C8_buffer_retention peerStart [remoteUpd 2, remoteUpd 1, remoteUpd 0] rfl).1

/-- An update for version 0 originated by the local client itself. -/
def selfUpd : DocumentUpdate := ⟨0, .appendLine "x", "me", none⟩

/-- C9 counterexample: on the receive path a self-originated update is
dropped before any bookkeeping — from a fresh client, receiving our own
version-0 update leaves the expected next version at 0 (and dispatches
nothing), whereas the same update from any other client advances it to 1.
The claim that self updates advance the bookkeeping identically is false. -/
theorem C9_counterexample :
    (peerStart.onUpdate selfUpd).synced = 0 ∧
    (peerStart.onUpdate selfUpd).applied = [] ∧
    (peerStart.onUpdate selfUpd).queued = [] ∧
    (peerStart.onUpdate (remoteUpd 0)).synced = 1 := by
  decide

/-- C9 amended: an incoming update whose clientID equals the local client
id is discarded entirely on the receive path — the state, including the
expected-next-version bookkeeping, is untouched; the synced version for a
local update advances on the send path instead, where a successful push
feeds the update through the same buffered drain, advancing the synced
version by at least one. -/
theorem C9_self_discarded (st : PeerState) (u : DocumentUpdate) (pu : PeerUpdate) :
    (u.clientID = st.ownID → st.onUpdate u = st) ∧
    (u.clientID ≠ st.ownID → st.onUpdate u = st.applyUpdate u.version u.toPeer) ∧
    st.synced + 1 ≤ (st.pushSuccess pu).synced := by
  refine ⟨fun hc => by simp [PeerState.onUpdate, hc],
          fun hc => by simp [PeerState.onUpdate, hc], ?_⟩
  unfold PeerState.pushSuccess PeerState.applyUpdate
  have hget := mapGet_mapSet_self st.queued st.synced pu
  have hstep :
      drainLoop ((mapSet st.queued st.synced pu).length + 1)
        { st with queued := mapSet st.queued st.synced pu }
      = drainLoop (mapSet st.queued st.synced pu).length
        { st with queued := mapSet st.queued st.synced pu,
                  applied := st.applied ++ [(st.synced, pu)],
                  synced := st.synced + 1 } := by
    conv_lhs => rw [drainLoop]
    simp [hget]
  simp only
  rw [hstep]
  have h := drainLoop_synced_le (mapSet st.queued st.synced pu).length
    { st with queued := mapSet st.queued st.synced pu,
              applied := st.applied ++ [(st.synced, pu)],
              synced := st.synced + 1 }
  simp only at h
  omega

/-- Witness for C9: the self-originated update is discarded unchanged on
the fresh client. -/
theorem C9_self_discarded_witness :
    peerStart.onUpdate selfUpd = peerStart :=
  (C9_self_discarded peerStart selfUpd selfUpd.toPeer).1 rfl

/-! The persistence layer (src/unnamed/part_000, lines 112-164): the
`watch` closure over `lastSaved` and `pendingSave`, its async `write`
routine, and the two subscriptions on `text$`.  The only suspension point
of `write` is the `await writeFile(...)` inside its loop; a call of
`write` arriving during that await finds `pendingSave` set and takes the
early-return branch.  A run of the routine is modelled by the list of
texts requested during each successive await. -/

/-- The mutable state of one `watch` activation plus the file it targets.
`fileContent` is the current content of the file at `path`. -/
structure WriteState where
  pendingSave : Option DocText
  lastSaved : Option DocText
  fileContent : Option DocText
  saveState : Bool
deriving DecidableEq

/-- A `write(t)` call arriving while a save is in progress (lines
127-130): it overwrites `pendingSave` with its text and returns. -/
def writeReentrant (st : WriteState) (t : DocText) : WriteState :=
  if st.pendingSave.isSome then { st with pendingSave := some t } else st

/-- One iteration of the write loop body (lines 133-135): set
`pendingSave := nextSave`, perform the file write — during whose await the
texts in `arr` arrive as re-entrant `write` calls — then set
`lastSaved := nextSave`.  Note the body writes `nextSave`, the original
argument of this invocation, never the remembered `pendingSave`. -/
def writeIter (nextSave : DocText) (arr : List DocText) (st : WriteState) : WriteState :=
  let st1 := { st with pendingSave := some nextSave }
  let st2 := { st1 with fileContent := some nextSave }
  let st3 := arr.foldl writeReentrant st2
  { st3 with lastSaved := some nextSave }

/-- The write loop (line 132): run body iterations while `pendingSave` is
unset or differs from `nextSave`.  Once the arrival batches are exhausted
an iteration leaves `pendingSave = some nextSave`, so at most one further
iteration runs and the loop exits. -/
def writeLoop (nextSave : DocText) : List (List DocText) → WriteState → WriteState
  | [], st =>
    if st.pendingSave = some nextSave then st else writeIter nextSave [] st
  | arr :: rest, st =>
    if st.pendingSave = some nextSave then st
    else writeLoop nextSave rest (writeIter nextSave arr st)

/-- The epilogue after the loop (lines 138-139): recompute the save flag
as `!!lastSaved && nextSave.eq(lastSaved)` and clear `pendingSave`. -/
def writeFinish (nextSave : DocText) (st : WriteState) : WriteState :=
  { st with
      saveState := st.lastSaved.isSome && decide (st.lastSaved = some nextSave),
      pendingSave := none }

/-- A full `write(nextSave)` call (lines 124-140), with `arrivals` the
texts requested re-entrantly during each successive file-write await. -/
def write (nextSave : DocText) (arrivals : List (List DocText)) (st : WriteState) :
    WriteState :=
  if st.pendingSave.isSome then { st with pendingSave := some nextSave }
  else writeFinish nextSave (writeLoop nextSave arrivals st)

/-- The text of a loaded, saved file. -/
def tA : DocText := ["a"]

/-- The first edited text, whose write is in flight. -/
def tB : DocText := ["b"]

/-- The text requested while the write of `tB` is in flight. -/
def tC : DocText := ["c"]

/-- The watch state of a freshly loaded saved file with text `tA`. -/
def wStart : WriteState := ⟨none, some tA, some tA, true⟩

/-- The write-under-pressure run: a write of `tB` starts, and while it is
in flight a write of `tC` is requested. -/
def wRun : WriteState := write tB [[tC]] wStart

/-- C1 (code bug): the coalescing loop never writes the remembered pending
text.  When the in-flight write of `tB` completes with `pendingSave = tC`,
the loop body writes `nextSave` — the original `tB` — again instead of
`pendingSave`, resetting `pendingSave` to `tB` and exiting: the final file
content is `tB`, the pending `tC` is dropped with no retry scheduled, and
the file never converges to the latest materialized text. -/
theorem C1_pending_write_dropped :
    wRun.fileContent = some tB ∧ wRun.fileContent ≠ some tC ∧
    wRun.pendingSave = none := by
  decide

/-- C5 (code bug): after the loop, `lastSaved = nextSave` always holds, so
the epilogue `saveState := !!lastSaved && nextSave.eq(lastSaved)` is
constantly true — it never consults the current materialized text.  In the
run where the text changed to `tC` during the write of `tB`, the completed
write reports `saveState = true` although the materialized text `tC`
differs from the written `tB`, where the claim requires `false`. -/
theorem C5_saved_flag_not_recomputed :
    wRun.saveState = true ∧ wRun.lastSaved = some tB ∧ tC ≠ tB := by
  decide

/-! The debounced text watcher (lines 149-157) and its interaction with
`open` (lines 74-91).  `text$` emissions are modelled as a list of
(time, text) pairs with strictly increasing times; `debounceTime(d)`
delivers an emission at its time plus `d` iff no further emission arrives
within `d`. -/

/-- `debounceTime(d)` over timed emissions (no completion): an emission
followed within `d` by another is suppressed; otherwise it is delivered
`d` after it occurred. -/
def debounceTimed (d : Nat) : List (Nat × DocText) → List (Nat × DocText)
  | [] => []
  | [(t, x)] => [(t + d, x)]
  | (t, x) :: (t2, y) :: rest =>
    if t2 ≤ t + d then debounceTimed d ((t2, y) :: rest)
    else (t + d, x) :: debounceTimed d ((t2, y) :: rest)

/-- The `textWatch` source (line 150): `take(1)` delivers the first
emission immediately, concatenated with the remainder debounced by `d`. -/
def textWatchDeliveries (d : Nat) : List (Nat × DocText) → List (Nat × DocText)
  | [] => []
  | e :: rest => e :: debounceTimed d rest

/-- The subscriber's trigger condition (line 153):
`!lastSaved || !nextSave.eq(lastSaved)`. -/
def triggersWrite (lastSaved : Option DocText) (nextSave : DocText) : Bool :=
  match lastSaved with
  | none => true
  | some s => decide (¬ (nextSave = s))

/-- The initial `lastSaved` of a `watch` activation (line 120):
the initial text if the save flag is set, otherwise undefined. -/
def watchInitialLastSaved (saveStateValue : Bool) (initialText : DocText) :
    Option DocText :=
  if saveStateValue then some initialText else none

/-- The `saved` flag computed by `FileDocument.open` (lines 74-91): true
iff a path was given and the file existed (a missing file is treated as a
new unsaved document). -/
def openSaved (hasPath : Bool) (fileExists : Bool) : Bool :=
  hasPath && fileExists

/-- The write requests issued by the `textWatch` subscriber over a
delivery sequence, threading `lastSaved` (each triggered write is taken to
complete — recording its text in `lastSaved` — before the next delivery,
which holds in every run considered here since consecutive deliveries are
at least a debounce interval apart). -/
def watchWriteRequests (lastSaved : Option DocText) :
    List (Nat × DocText) → List (Nat × DocText)
  | [] => []
  | (t, x) :: rest =>
    if triggersWrite lastSaved x then (t, x) :: watchWriteRequests (some x) rest
    else watchWriteRequests lastSaved rest

/-- C6 counterexample: for a document opened with a path whose file did
not exist (a new unsaved document), `lastSaved` starts undefined, so the
very first emitted value — the just-loaded default text — triggers an
immediate write at time 0, refuting the claim that the first value never
triggers a write. -/
theorem C6_counterexample :
    watchWriteRequests (watchInitialLastSaved (openSaved true false) [""])
        (textWatchDeliveries 1000 [(0, [""])]) = [(0, [""])] := by
  decide

/-- The loaded text of the saved-file burst scenario. -/
def tLoad : DocText := ["load"]

/-- The five rapid edits of the burst scenario, 100 ms apart after the
initial emission of the loaded text. -/
def burstEmissions : List (Nat × DocText) :=
  [(0, tLoad), (100, ["e1"]), (200, ["e2"]), (300, ["e3"]), (400, ["e4"]), (500, ["e5"])]

/-- C6 amended: the first emitted value triggers no write exactly when the
document was opened saved (`lastSaved` equals the loaded text); when it is
unsaved — the file did not exist, or right after `saveAs` — the first
value triggers an immediate write.  Subsequent values are debounced by the
1000 ms quiescence window: five edits 100 ms apart on a saved file produce
exactly one write, of the fifth edit's text, 1000 ms after the last edit. -/
theorem C6_first_value_and_debounce :
    (∀ t0 : DocText, triggersWrite (watchInitialLastSaved true t0) t0 = false) ∧
    (∀ t0 : DocText, triggersWrite (watchInitialLastSaved false t0) t0 = true) ∧
    watchWriteRequests (watchInitialLastSaved true tLoad)
        (textWatchDeliveries 1000 burstEmissions) = [(1500, ["e5"])] := by
  refine ⟨fun t0 => ?_, fun t0 => ?_, by decide⟩
  · simp [triggersWrite, watchInitialLastSaved]
  · simp [triggersWrite, watchInitialLastSaved]

/-! Destroy and the debounce window (C7).  `DesktopTab.destroy` (lines
195-200) never calls `unwatch`: it completes `updates$`, which completes
`text$` and hence the debounced `textWatch` source.  RxJS `debounceTime`
flushes its pending value when the source completes, so the subscriptions
end by completion — with a final delivery — rather than by
unsubscription. -/

/-- `debounceTime(d)` over emissions (all at times at most `tc`) whose
source completes at time `tc`: a pending value whose quiet window has not
elapsed by `tc` is flushed at `tc` itself. -/
def debounceUntilComplete (d tc : Nat) : List (Nat × DocText) → List (Nat × DocText)
  | [] => []
  | [(t, x)] => if t + d ≤ tc then [(t + d, x)] else [(tc, x)]
  | (t, x) :: (t2, y) :: rest =>
    if t2 ≤ t + d then debounceUntilComplete d tc ((t2, y) :: rest)
    else (t + d, x) :: debounceUntilComplete d tc ((t2, y) :: rest)

/-- The text of the edit made shortly before the tab is destroyed. -/
def tEdit : DocText := ["edit"]

/-- C7 counterexample: a document loaded saved with text `tLoad` is edited
to `tEdit` at time 500 and the tab is destroyed at time 600, inside the
1000 ms debounce window.  Completion flushes the pending edit at time 600
and the trigger condition fires, so a write is scheduled at the destroy
point — refuting the claim that no write is scheduled after destroy. -/
theorem C7_counterexample :
    debounceUntilComplete 1000 600 [(500, tEdit)] = [(600, tEdit)] ∧
    triggersWrite (some tLoad) tEdit = true := by
  decide

/-- C7 amended: tearing the streams down by completion delivers nothing
after the completion instant — every delivery of the debounced watcher
happens at or before the completion time `tc` (given all emissions are) —
but a single pending emission still inside its debounce window at `tc` is
flushed exactly at `tc`, producing one final write request at destroy
time rather than none. -/
theorem C7_completion_flush (d tc : Nat) (es : List (Nat × DocText))
    (h : ∀ e ∈ es, e.1 ≤ tc) :
    (∀ e ∈ debounceUntilComplete d tc es, e.1 ≤ tc) ∧
    (∀ t x, es = [(t, x)] → tc < t + d →
      debounceUntilComplete d tc es = [(tc, x)]) := by
  constructor
  · induction es with
    | nil => intro e he; simp [debounceUntilComplete] at he
    | cons a rest ih =>
      obtain ⟨t, x⟩ := a
      cases rest with
      | nil =>
        intro e he
        by_cases hle : t + d ≤ tc
        · simp [debounceUntilComplete, hle] at he
          rw [he]
          exact hle
        · simp [debounceUntilComplete, hle] at he
          rw [he]
      | cons b rest2 =>
        obtain ⟨t2, y⟩ := b
        have hrest : ∀ e ∈ (t2, y) :: rest2, e.1 ≤ tc := by
          intro e he
          exact h e (List.mem_cons_of_mem _ he)
        intro e he
        by_cases hle : t2 ≤ t + d
        · rw [show debounceUntilComplete d tc ((t, x) :: (t2, y) :: rest2)
              = debounceUntilComplete d tc ((t2, y) :: rest2) by
            simp [debounceUntilComplete, hle]] at he
          exact ih hrest e he
        · rw [show debounceUntilComplete d tc ((t, x) :: (t2, y) :: rest2)
              = (t + d, x) :: debounceUntilComplete d tc ((t2, y) :: rest2) by
            simp [debounceUntilComplete, hle]] at he
          rcases List.mem_cons.mp he with heq | hmem
          · have ht2 : t2 ≤ tc := by
              simpa using hrest (t2, y) (List.mem_cons_self _ _)
            rw [heq]
            simp only
            omega
          · exact ih hrest e hmem
  · intro t x heq hlt
    subst heq
    have hne : ¬ (t + d ≤ tc) := by omega
    simp [debounceUntilComplete, hne]

/-- Witness for C7: the pending edit from time 500 is flushed exactly at
the destroy time 600, inside its debounce window. -/
theorem C7_completion_flush_witness :
    debounceUntilComplete 1000 600 [(500, ["w"])] = [(600, ["w"])] :=
  (C7_completion_flush 1000 600 [(500, ["w"])] (by decide)).2 500 ["w"] rfl (by decide)

end Cyclist
